import Mathlib

/-!
Verification of the kutani/quadtree library (src/aabb.c, src/quadtree.c)
against its natural-language specification.

The C code is shallowly embedded: C float values are modelled as exact
rationals, machine pointers used as opaque element handles become an
arbitrary type with decidable equality, and the in-place mutation of
nodes becomes explicit state passing.  The thread-safety layer (mutexes,
intent counters) compiles to no-ops in the single-threaded build and is
elided here; everything else follows the C sources line by line.
-/

namespace Quadtree

/-- C converts a float argument to an int parameter by truncation toward
zero; this models that conversion on exact rationals. -/
def cTrunc (q : ℚ) : ℤ := if q < 0 then -⌊-q⌋ else ⌊q⌋

/-- The center sub-struct of `aabb` (aabb.h): the box's center point. -/
structure xy where
  x : ℚ
  y : ℚ
deriving DecidableEq, Repr

/-- The dims sub-struct of `aabb` (aabb.h): half-width and half-height. -/
structure wh where
  w : ℚ
  h : ℚ
deriving DecidableEq, Repr

/-- Model of `aabb` (aabb.h): axis-aligned bounding box given by center
point and half-extents. -/
structure aabb where
  center : xy
  dims : wh
deriving DecidableEq, Repr

/-- Embeds `aabb_contains` (aabb.c lines 21-27): closed-box point
containment. -/
def aabb_contains (a : aabb) (x y : ℚ) : Bool :=
  decide (x ≥ a.center.x - a.dims.w) && decide (x ≤ a.center.x + a.dims.w) &&
  (decide (y ≥ a.center.y - a.dims.h) && decide (y ≤ a.center.y + a.dims.h))

/-- Embeds `aabb_intersects` (aabb.c lines 29-33).  The C source calls the
integer `abs` from stdlib.h on a float argument, so the difference of
centers is truncated toward zero before the absolute value is taken; the
resulting int is then compared (promoted back to float) against the sum of
half-extents. -/
def aabb_intersects (a b : aabb) : Bool :=
  decide (((cTrunc (a.center.x - b.center.x)).natAbs : ℚ) < a.dims.w + b.dims.w) &&
  decide (((cTrunc (a.center.y - b.center.y)).natAbs : ℚ) < a.dims.h + b.dims.h)

/-- Model of `qnode` (quadtree.c lines 56-69): a quadtree cell with a bound,
an element list (the C `elist` with its length as `cnt`), and either no
children (a NULL `nw` pointer) or all four children NW, NE, SW, SE. -/
inductive qnode (α : Type) where
  | leaf (bound : aabb) (elist : List α)
  | node (bound : aabb) (elist : List α) (nw ne sw se : qnode α)
deriving DecidableEq, Repr

/-- The `bound` field of a node. -/
def qbound {α : Type} : qnode α → aabb
  | .leaf b _ => b
  | .node b _ _ _ _ _ => b

/-- The `elist` field of a node; its length is the C `cnt` field. -/
def qelist {α : Type} : qnode α → List α
  | .leaf _ l => l
  | .node _ l _ _ _ _ => l

/-- The `se` child pointer of a node, NULL on a leaf. -/
def qse {α : Type} : qnode α → Option (qnode α)
  | .leaf _ _ => none
  | .node _ _ _ _ _ se => some se

/-- Model of `_qtree` (quadtree.c lines 72-84): the tree container, holding
the per-node capacity `maxnodecap`, the root node and the caller-supplied
placement predicate `cmpfnc`. -/
structure _qtree (α : Type) where
  maxnodecap : ℕ
  root : qnode α
  cmpfnc : α → aabb → Bool

/-- Embeds `qtree_getMaxNodeCnt` (quadtree.c lines 102-109): reads the
configured per-node capacity. -/
def qtree_getMaxNodeCnt {α : Type} (q : _qtree α) : ℕ := q.maxnodecap

/-- Embeds `qnode_new` (quadtree.c lines 111-125): a fresh node is zeroed,
so it is a leaf with an empty element list and the given bound. -/
def qnode_new {α : Type} (x y hW hH : ℚ) : qnode α :=
  .leaf ⟨⟨x, y⟩, ⟨hW, hH⟩⟩ []

/-- Embeds `add` (quadtree.c lines 170-175): append an element to a node's
list and bump `cnt`. -/
def add {α : Type} : qnode α → α → qnode α
  | .leaf b l, p => .leaf b (l ++ [p])
  | .node b l nw ne sw se, p => .node b (l ++ [p]) nw ne sw se

/-- The scan loop of `qnode_remove` (quadtree.c lines 305-313) combined with
`drop` (lines 177-192): find the first index holding `ptr` and rebuild the
list without it.  Yields `none` when no entry matches. -/
def removeFirst {α : Type} [DecidableEq α] : List α → α → Option (List α)
  | [], _ => none
  | x :: xs, p => if x = p then some xs else (removeFirst xs p).map (x :: ·)

/-- Embeds `subdivide` (quadtree.c lines 194-205): the four fresh children
built from a bound, in the order NW, NE, SW, SE. -/
def subdivide {α : Type} (b : aabb) : qnode α × qnode α × qnode α × qnode α :=
  (qnode_new (b.center.x - b.dims.w/2) (b.center.y - b.dims.h/2) (b.dims.w/2) (b.dims.h/2),
   qnode_new (b.center.x + b.dims.w/2) (b.center.y - b.dims.h/2) (b.dims.w/2) (b.dims.h/2),
   qnode_new (b.center.x - b.dims.w/2) (b.center.y + b.dims.h/2) (b.dims.w/2) (b.dims.h/2),
   qnode_new (b.center.x + b.dims.w/2) (b.center.y + b.dims.h/2) (b.dims.w/2) (b.dims.h/2))

/-- Embeds `qnode_insert` (quadtree.c lines 254-294).  The C recursion is
bounded only by the predicate's behavior, so a fuel argument bounds the
recursion depth; `none` means the C code has not produced a result within
that depth.  Returns the updated node together with the C int result
(accepted or not).  A full node that is a leaf gains the four `subdivide`
children (lines 274-275); the children are then tried in NW, NE, SW, SE
order (lines 280-287), each try mutating the child in place, with the
fall-through returning the `ret` still equal to 0 (line 289). -/
def qnode_insert {α : Type} (q : _qtree α) : ℕ → qnode α → α → Option (qnode α × Bool)
  | 0, _, _ => none
  | fuel+1, qn, ptr =>
    if q.cmpfnc ptr (qbound qn) = false then some (qn, false)
    else if (qelist qn).length < qtree_getMaxNodeCnt q then some (add qn ptr, true)
    else
      let (b, l, nw, ne, sw, se) :=
        match qn with
        | .leaf b l =>
          let (nw, ne, sw, se) := subdivide b
          (b, l, nw, ne, sw, se)
        | .node b l nw ne sw se => (b, l, nw, ne, sw, se)
      match qnode_insert q fuel nw ptr with
      | none => none
      | some (nw', r1) =>
        if r1 then some (.node b l nw' ne sw se, true) else
        match qnode_insert q fuel ne ptr with
        | none => none
        | some (ne', r2) =>
          if r2 then some (.node b l nw' ne' sw se, true) else
          match qnode_insert q fuel sw ptr with
          | none => none
          | some (sw', r3) =>
            if r3 then some (.node b l nw' ne' sw' se, true) else
            match qnode_insert q fuel se ptr with
            | none => none
            | some (se', r4) => some (.node b l nw' ne' sw' se', r4)

/-- Embeds `qnode_remove` (quadtree.c lines 296-330).  On a match in the
node's own list the element is dropped, `ptr` is set to NULL and that
(null) `ptr` is returned (lines 307-311 and 327-329).  Otherwise, with no
children the result is NULL (line 318); with children each child is
searched in NW, NE, SW, SE order, and a truthy child result would
short-circuit with the original `ptr` (lines 320-323), the final
fall-through returning NULL (line 325).  The pair is the updated subtree
and the returned pointer. -/
def qnode_remove {α : Type} [DecidableEq α] : qnode α → α → qnode α × Option α
  | .leaf b l, ptr =>
    match removeFirst l ptr with
    | some l' => (.leaf b l', none)
    | none => (.leaf b l, none)
  | .node b l nw ne sw se, ptr =>
    match removeFirst l ptr with
    | some l' => (.node b l' nw ne sw se, none)
    | none =>
      let (nw', r1) := qnode_remove nw ptr
      if r1.isSome then (.node b l nw' ne sw se, some ptr) else
      let (ne', r2) := qnode_remove ne ptr
      if r2.isSome then (.node b l nw' ne' sw se, some ptr) else
      let (sw', r3) := qnode_remove sw ptr
      if r3.isSome then (.node b l nw' ne' sw' se, some ptr) else
      let (se', r4) := qnode_remove se ptr
      if r4.isSome then (.node b l nw' ne' sw' se', some ptr) else
      (.node b l nw' ne' sw' se', none)

/-- Model of `retlist` (quadtree.c lines 89-93): the query result buffer.
The C `list` pointer starts as NULL (memset in `qtree_findInArea`),
modelled as `none`; a zero-length allocation would be `some []`. -/
structure retlist (α : Type) where
  cnt : ℕ
  range : aabb
  list : Option (List α)

/-- Embeds `retlist_add` (quadtree.c lines 95-100): grow the array by one
slot and append; realloc of NULL allocates fresh storage. -/
def retlist_add {α : Type} (r : retlist α) (p : α) : retlist α :=
  { r with list := some (r.list.getD [] ++ [p]), cnt := r.cnt + 1 }

/-- The element loop of `qnode_getInRange` (quadtree.c lines 345-347): add
every element of the node's list that satisfies the placement predicate
against the query range. -/
def addMatching {α : Type} (q : _qtree α) (l : List α) (r : retlist α) : retlist α :=
  l.foldl (fun acc e => if q.cmpfnc e acc.range = true then retlist_add acc e else acc) r

/-- Embeds `qnode_getInRange` (quadtree.c lines 332-364).  A non-empty node
whose bound fails `aabb_intersects` against the query range exits early,
skipping its own elements and its children (lines 341-343); otherwise
matching elements are collected and, when children exist, all four are
visited in NW, NE, SW, SE order.  An empty node skips the intersection
test entirely and still descends into its children. -/
def qnode_getInRange {α : Type} (q : _qtree α) : qnode α → retlist α → retlist α
  | .leaf b l, r =>
    if l.length ≠ 0 ∧ aabb_intersects b r.range = false then r
    else addMatching q l r
  | .node b l nw ne sw se, r =>
    if l.length ≠ 0 ∧ aabb_intersects b r.range = false then r
    else
      qnode_getInRange q se (qnode_getInRange q sw (qnode_getInRange q ne
        (qnode_getInRange q nw (addMatching q l r))))

/-- Embeds `qtree_new` (quadtree.c lines 368-389): root bound centered at
(x+w/2, y+h/2) with half-extents (w/2, h/2), default capacity
`QTREE_STDCAP` which is 4. -/
def qtree_new {α : Type} (x y w h : ℚ) (fnc : α → aabb → Bool) : _qtree α :=
  { maxnodecap := 4
    root := qnode_new (x + w/2) (y + h/2) (w/2) (h/2)
    cmpfnc := fnc }

/-- Embeds `qtree_insert` (quadtree.c lines 430-447): inserts at the root,
discarding the node-level result. -/
def qtree_insert {α : Type} (q : _qtree α) (fuel : ℕ) (ptr : α) : Option (_qtree α) :=
  (qnode_insert q fuel q.root ptr).map fun res => { q with root := res.1 }

/-- Embeds `qtree_remove` (quadtree.c lines 449-466): removes at the root,
discarding the node-level result. -/
def qtree_remove {α : Type} [DecidableEq α] (q : _qtree α) (ptr : α) : _qtree α :=
  { q with root := (qnode_remove q.root ptr).1 }

/-- The C expression `cnt || 1` (quadtree.c line 471): logical OR of two
int values, yielding 1 when either operand is nonzero and 0 otherwise. -/
def cOr (a b : ℕ) : ℕ := if a ≠ 0 ∨ b ≠ 0 then 1 else 0

/-- Embeds `qtree_setMaxNodeCnt` (quadtree.c lines 468-473): stores the
value of the C expression `cnt || 1`. -/
def qtree_setMaxNodeCnt {α : Type} (q : _qtree α) (cnt : ℕ) : _qtree α :=
  { q with maxnodecap := cOr cnt 1 }

/-- Embeds `qtree_clear` (quadtree.c lines 475-500): replace the root with a
fresh node built by `qnode_new` from the old root's bound fields. -/
def qtree_clear {α : Type} (q : _qtree α) : _qtree α :=
  { q with root := (qnode_new (qbound q.root).center.x (qbound q.root).center.y
      (qbound q.root).dims.w (qbound q.root).dims.h) }

/-- The query range built by `qtree_findInArea` (quadtree.c lines 512-521):
centered at (x+w/2, y+h/2) with half-extents (w/2, h/2). -/
def queryRange (x y w h : ℚ) : aabb :=
  ⟨⟨x + w/2, y + h/2⟩, ⟨w/2, h/2⟩⟩

/-- Embeds `qtree_findInArea` (quadtree.c lines 502-533): zero-initialize a
`retlist` (so the list is NULL and the count 0), run `qnode_getInRange`
from the root, and return the list pointer together with the count. -/
def qtree_findInArea {α : Type} (q : _qtree α) (x y w h : ℚ) : Option (List α) × ℕ :=
  let out := qnode_getInRange q q.root { cnt := 0, range := queryRange x y w h, list := none }
  (out.list, out.cnt)

/-- All elements stored anywhere in a subtree, in depth-first NW, NE, SW, SE
order with a node's own list first. -/
def qnode_elems {α : Type} : qnode α → List α
  | .leaf _ l => l
  | .node _ l nw ne sw se =>
      l ++ qnode_elems nw ++ qnode_elems ne ++ qnode_elems sw ++ qnode_elems se

/-- Specification-side wording of insertion step 4: try the children in the
given order; the first that accepts replaces its slot and the walk stops
with true; a child that rejects keeps its updated state and the walk
continues; all four rejecting yields false.  A child run without a result
propagates as `none`. -/
def spec_tryChildren {α : Type} (ins : qnode α → Option (qnode α × Bool)) :
    List (qnode α) → Option (List (qnode α) × Bool)
  | [] => some ([], false)
  | c :: cs =>
    match ins c with
    | none => none
    | some (c', true) => some (c' :: cs, true)
    | some (c', false) =>
      match spec_tryChildren ins cs with
      | none => none
      | some (cs', r) => some (c' :: cs', r)

/-- Specification-side wording of insertion step 3: a leaf subdivides,
gaining the four `subdivide` children; a node that already has children is
unchanged. -/
def spec_subdivided {α : Type} : qnode α → qnode α
  | .leaf b l =>
    match subdivide (α := α) b with
    | (nw, ne, sw, se) => .node b l nw ne sw se
  | n => n

/-- The children of a node in NW, NE, SW, SE order, empty for a leaf. -/
def spec_children {α : Type} : qnode α → List (qnode α)
  | .leaf _ _ => []
  | .node _ _ nw ne sw se => [nw, ne, sw, se]

/-- Replace a node's children by the four given ones. -/
def spec_withChildren {α : Type} : qnode α → List (qnode α) → qnode α
  | .node b l _ _ _ _, [nw, ne, sw, se] => .node b l nw ne sw se
  | n, _ => n

/-- Concrete placement predicate for the double-insert scenarios: handle 0
is accepted everywhere, handle 1 only in boxes of half-width at least 1. -/
def predC2 : ℕ → aabb → Bool := fun p b => if p = 0 then true else decide (1 ≤ b.dims.w)

/-- Tree over (0,0,4,4) with `set_max_cap` applied (the stored capacity
becomes 1). -/
def t2a : _qtree ℕ := qtree_setMaxNodeCnt (qtree_new 0 0 4 4 predC2) 1

/-- After inserting filler handle 0: the root leaf holds it. -/
def t2b : _qtree ℕ := (qtree_insert t2a 1 0).getD t2a

/-- After the first insert of handle 1: the root subdivides and handle 1
lands in the NW child. -/
def t2c : _qtree ℕ := (qtree_insert t2b 2 1).getD t2b

/-- After the second insert of handle 1: the NW child is full and its
subdivision rejects handle 1, so the copy lands in the sibling NE child.
The two copies of handle 1 now live in two distinct nodes. -/
def t2d : _qtree ℕ := (qtree_insert t2c 3 1).getD t2c

/-- Round-trip start: one more insert of handle 1 (it lands in SW). -/
def t8i : _qtree ℕ := (qtree_insert t2d 3 1).getD t2d

/-- Round-trip end: one remove of handle 1 after the insert. -/
def t8r : _qtree ℕ := qtree_remove t8i 1

/-- Expected NW child of `t2d`: holds one copy of handle 1 and four empty
children of half-width 1/2. -/
def nwFull : qnode ℕ := qnode.node ⟨⟨1,1⟩,⟨1,1⟩⟩ [1]
    (qnode.leaf ⟨⟨1/2,1/2⟩,⟨1/2,1/2⟩⟩ []) (qnode.leaf ⟨⟨3/2,1/2⟩,⟨1/2,1/2⟩⟩ [])
    (qnode.leaf ⟨⟨1/2,3/2⟩,⟨1/2,1/2⟩⟩ []) (qnode.leaf ⟨⟨3/2,3/2⟩,⟨1/2,1/2⟩⟩ [])

/-- Expected NE child of `t8i`: holds one copy of handle 1 and four empty
children of half-width 1/2. -/
def neFull : qnode ℕ := qnode.node ⟨⟨3,1⟩,⟨1,1⟩⟩ [1]
    (qnode.leaf ⟨⟨5/2,1/2⟩,⟨1/2,1/2⟩⟩ []) (qnode.leaf ⟨⟨7/2,1/2⟩,⟨1/2,1/2⟩⟩ [])
    (qnode.leaf ⟨⟨5/2,3/2⟩,⟨1/2,1/2⟩⟩ []) (qnode.leaf ⟨⟨7/2,3/2⟩,⟨1/2,1/2⟩⟩ [])

/-- The NW child of `t8r`: its copy of handle 1 is gone. -/
def nwEmpty : qnode ℕ := qnode.node ⟨⟨1,1⟩,⟨1,1⟩⟩ []
    (qnode.leaf ⟨⟨1/2,1/2⟩,⟨1/2,1/2⟩⟩ []) (qnode.leaf ⟨⟨3/2,1/2⟩,⟨1/2,1/2⟩⟩ [])
    (qnode.leaf ⟨⟨1/2,3/2⟩,⟨1/2,1/2⟩⟩ []) (qnode.leaf ⟨⟨3/2,3/2⟩,⟨1/2,1/2⟩⟩ [])

/-- The NE child of `t8r`: its copy of handle 1 is gone as well. -/
def neEmpty : qnode ℕ := qnode.node ⟨⟨3,1⟩,⟨1,1⟩⟩ []
    (qnode.leaf ⟨⟨5/2,1/2⟩,⟨1/2,1/2⟩⟩ []) (qnode.leaf ⟨⟨7/2,1/2⟩,⟨1/2,1/2⟩⟩ [])
    (qnode.leaf ⟨⟨5/2,3/2⟩,⟨1/2,1/2⟩⟩ []) (qnode.leaf ⟨⟨7/2,3/2⟩,⟨1/2,1/2⟩⟩ [])

/-- Point-containment placement predicate of the spec's concrete
scenario 1: an element is a point and belongs to a region containing it. -/
def predPoint : ℚ × ℚ → aabb → Bool := fun p b => aabb_contains b p.1 p.2

/-- Scenario 1 start: tree over (0,0,100,100), capacity 4. -/
def t9a : _qtree (ℚ × ℚ) := qtree_new 0 0 100 100 predPoint

/-- Scenario 1 after inserting the point (10,10). -/
def t9b : _qtree (ℚ × ℚ) := (qtree_insert t9a 1 (10,10)).getD t9a

/-- Scenario 1 after inserting the point (20,20). -/
def t9c : _qtree (ℚ × ℚ) := (qtree_insert t9b 1 (20,20)).getD t9b

/-- Scenario 1 after inserting the point (30,30). -/
def t9d : _qtree (ℚ × ℚ) := (qtree_insert t9c 1 (30,30)).getD t9c

/-- Scenario 1 after inserting the point (40,40): the root leaf is full. -/
def t9e : _qtree (ℚ × ℚ) := (qtree_insert t9d 1 (40,40)).getD t9d

/-- Scenario 1 after inserting the point (60,60): the root subdivides and
the new point lands in the SE child. -/
def t9f : _qtree (ℚ × ℚ) := (qtree_insert t9e 2 (60,60)).getD t9e

/-- A one-element tree whose predicate rejects everything, witnessing the
empty-query behavior. -/
def t10 : _qtree ℕ := ⟨4, qnode.leaf ⟨⟨0,0⟩,⟨1,1⟩⟩ [7], fun _ _ => false⟩

end Quadtree

namespace Quadtree

/-- Adding to a result buffer does not change its query range. -/
lemma retlist_add_range {α : Type} (r : retlist α) (p : α) :
    (retlist_add r p).range = r.range := rfl

/-- Collecting a node's matching elements does not change the query range. -/
lemma addMatching_range {α : Type} (q : _qtree α) (l : List α) (r : retlist α) :
    (addMatching q l r).range = r.range := by
  induction l generalizing r with
  | nil => rfl
  | cons x xs ih =>
    simp only [addMatching, List.foldl] at *
    split <;> exact ih _

/-- The recursive range query does not change the query range. -/
lemma getInRange_range {α : Type} (q : _qtree α) (qn : qnode α) (r : retlist α) :
    (qnode_getInRange q qn r).range = r.range := by
  induction qn generalizing r with
  | leaf b l =>
    simp only [qnode_getInRange]
    split
    · rfl
    · exact addMatching_range q l r
  | node b l nw ne sw se ihnw ihne ihsw ihse =>
    simp only [qnode_getInRange]
    split
    · rfl
    · rw [ihse, ihsw, ihne, ihnw, addMatching_range]

/-- Every element of the buffer after the element loop was already in the
buffer, or is a node element satisfying the placement predicate against
the query range. -/
lemma addMatching_mem {α : Type} (q : _qtree α) (l : List α) (r : retlist α) (e : α) :
    e ∈ (addMatching q l r).list.getD [] →
    e ∈ r.list.getD [] ∨ (e ∈ l ∧ q.cmpfnc e r.range = true) := by
  induction l generalizing r with
  | nil => intro h; exact Or.inl h
  | cons x xs ih =>
    intro h
    simp only [addMatching, List.foldl] at h
    by_cases hc : q.cmpfnc x r.range = true
    · rw [if_pos hc] at h
      rcases ih (retlist_add r x) (by exact h) with h1 | ⟨h1, h2⟩
      · have h1' : e ∈ r.list.getD [] ++ [x] := by
          simpa [retlist_add] using h1
        rcases List.mem_append.1 h1' with h2 | h2
        · exact Or.inl h2
        · simp only [List.mem_singleton] at h2
          subst h2
          exact Or.inr ⟨List.mem_cons_self _ _, hc⟩
      · exact Or.inr ⟨List.mem_cons_of_mem _ h1, by rw [← retlist_add_range r x]; exact h2⟩
    · rw [if_neg hc] at h
      rcases ih r h with h1 | ⟨h1, h2⟩
      · exact Or.inl h1
      · exact Or.inr ⟨List.mem_cons_of_mem _ h1, h2⟩

/-- Every element of the buffer after a range query was already in the
buffer, or is stored in the queried subtree and satisfies the placement
predicate against the query range. -/
lemma getInRange_mem {α : Type} (q : _qtree α) (qn : qnode α) (r : retlist α) (e : α) :
    e ∈ (qnode_getInRange q qn r).list.getD [] →
    e ∈ r.list.getD [] ∨ (e ∈ qnode_elems qn ∧ q.cmpfnc e r.range = true) := by
  induction qn generalizing r with
  | leaf b l =>
    intro h
    simp only [qnode_getInRange] at h
    split at h
    · exact Or.inl h
    · rcases addMatching_mem q l r e h with h1 | ⟨h1, h2⟩
      · exact Or.inl h1
      · exact Or.inr ⟨by simpa [qnode_elems] using h1, h2⟩
  | node b l nw ne sw se ihnw ihne ihsw ihse =>
    intro h
    simp only [qnode_getInRange] at h
    split at h
    · exact Or.inl h
    · rcases ihse _ h with h1 | ⟨hm, hp⟩
      · rcases ihsw _ h1 with h2 | ⟨hm, hp⟩
        · rcases ihne _ h2 with h3 | ⟨hm, hp⟩
          · rcases ihnw _ h3 with h4 | ⟨hm, hp⟩
            · rcases addMatching_mem q l r e h4 with h5 | ⟨hm, hp⟩
              · exact Or.inl h5
              · exact Or.inr ⟨by simp [qnode_elems, hm], hp⟩
            · rw [addMatching_range] at hp
              exact Or.inr ⟨by simp [qnode_elems, hm], hp⟩
          · rw [getInRange_range, addMatching_range] at hp
            exact Or.inr ⟨by simp [qnode_elems, hm], hp⟩
        · rw [getInRange_range, getInRange_range, addMatching_range] at hp
          exact Or.inr ⟨by simp [qnode_elems, hm], hp⟩
      · rw [getInRange_range, getInRange_range, getInRange_range, addMatching_range] at hp
        exact Or.inr ⟨by simp [qnode_elems, hm], hp⟩

/-- When no element of the node list satisfies the predicate, the element
loop leaves the buffer unchanged. -/
lemma addMatching_nomatch {α : Type} (q : _qtree α) (l : List α) (r : retlist α)
    (hf : ∀ e ∈ l, q.cmpfnc e r.range = false) : addMatching q l r = r := by
  induction l generalizing r with
  | nil => rfl
  | cons x xs ih =>
    simp only [addMatching, List.foldl]
    rw [if_neg (by simp [hf x (List.mem_cons_self _ _)])]
    exact ih r fun e he => hf e (List.mem_cons_of_mem _ he)

/-- When no stored element satisfies the predicate, the range query leaves
the buffer unchanged. -/
lemma getInRange_nomatch {α : Type} (q : _qtree α) (qn : qnode α) (r : retlist α)
    (hf : ∀ e ∈ qnode_elems qn, q.cmpfnc e r.range = false) :
    qnode_getInRange q qn r = r := by
  induction qn generalizing r with
  | leaf b l =>
    simp only [qnode_getInRange]
    split
    · rfl
    · exact addMatching_nomatch q l r fun e he => hf e (by simpa [qnode_elems] using he)
  | node b l nw ne sw se ihnw ihne ihsw ihse =>
    simp only [qnode_getInRange]
    split
    · rfl
    · rw [addMatching_nomatch q l r fun e he => hf e (by simp [qnode_elems, he])]
      rw [ihnw r fun e he => hf e (by simp [qnode_elems, he])]
      rw [ihne r fun e he => hf e (by simp [qnode_elems, he])]
      rw [ihsw r fun e he => hf e (by simp [qnode_elems, he])]
      rw [ihse r fun e he => hf e (by simp [qnode_elems, he])]

end Quadtree

namespace Quadtree

/-- The stored capacity of the double-insert scenario tree is 1 and its
root is the empty leaf over (0,0,4,4). -/
lemma ht2a : t2a = ⟨1, qnode.leaf ⟨⟨2,2⟩,⟨2,2⟩⟩ [], predC2⟩ := by
  norm_num [t2a, qtree_new, qtree_setMaxNodeCnt, qnode_new, cOr]

/-- Inserting the filler handle 0 fills the capacity-1 root. -/
lemma ht2b : t2b = ⟨1, qnode.leaf ⟨⟨2,2⟩,⟨2,2⟩⟩ [0], predC2⟩ := by
  rw [t2b, ht2a]
  simp only [qtree_insert, qnode_insert, qbound, qelist, add, qtree_getMaxNodeCnt, predC2]
  norm_num

/-- The first insert of handle 1 subdivides the root and lands in NW. -/
lemma ht2c : t2c = ⟨1, qnode.node ⟨⟨2,2⟩,⟨2,2⟩⟩ [0]
    (qnode.leaf ⟨⟨1,1⟩,⟨1,1⟩⟩ [1]) (qnode.leaf ⟨⟨3,1⟩,⟨1,1⟩⟩ [])
    (qnode.leaf ⟨⟨1,3⟩,⟨1,1⟩⟩ []) (qnode.leaf ⟨⟨3,3⟩,⟨1,1⟩⟩ []), predC2⟩ := by
  rw [t2c, ht2b]
  simp only [qtree_insert, qnode_insert, qbound, qelist, add, subdivide, qnode_new,
    qtree_getMaxNodeCnt, predC2]
  norm_num

/-- The second insert of handle 1: NW is full, NW's own subdivision rejects
the handle (half-width 1/2), so the copy lands in the sibling NE child;
the two copies of handle 1 now live in two distinct nodes. -/
lemma ht2d : t2d = ⟨1, qnode.node ⟨⟨2,2⟩,⟨2,2⟩⟩ [0]
    nwFull (qnode.leaf ⟨⟨3,1⟩,⟨1,1⟩⟩ [1])
    (qnode.leaf ⟨⟨1,3⟩,⟨1,1⟩⟩ []) (qnode.leaf ⟨⟨3,3⟩,⟨1,1⟩⟩ []), predC2⟩ := by
  rw [t2d, ht2c]
  simp only [qtree_insert, qnode_insert, qbound, qelist, add, subdivide, qnode_new,
    qtree_getMaxNodeCnt, predC2, nwFull]
  norm_num

/-- The third insert of handle 1 (the round-trip insert): NW and NE are
full and their subdivisions reject the handle, so it lands in SW. -/
lemma ht8i : t8i = ⟨1, qnode.node ⟨⟨2,2⟩,⟨2,2⟩⟩ [0]
    nwFull neFull
    (qnode.leaf ⟨⟨1,3⟩,⟨1,1⟩⟩ [1]) (qnode.leaf ⟨⟨3,3⟩,⟨1,1⟩⟩ []), predC2⟩ := by
  rw [t8i, ht2d]
  simp only [qtree_insert, qnode_insert, qbound, qelist, add, subdivide, qnode_new,
    qtree_getMaxNodeCnt, predC2, nwFull, neFull]
  norm_num

/-- One remove of handle 1 from `t8i` empties NW, NE and SW at once: each
sibling subtree loses its first match because the node-level remove
always reports NULL and the search never stops. -/
lemma ht8r : t8r = ⟨1, qnode.node ⟨⟨2,2⟩,⟨2,2⟩⟩ [0]
    nwEmpty neEmpty
    (qnode.leaf ⟨⟨1,3⟩,⟨1,1⟩⟩ []) (qnode.leaf ⟨⟨3,3⟩,⟨1,1⟩⟩ []), predC2⟩ := by
  rw [t8r, ht8i]
  simp only [qtree_remove, qnode_remove, removeFirst, nwFull, neFull, nwEmpty, neEmpty]
  norm_num

/-- One remove of handle 1 from `t2d` removes both copies at once. -/
lemma ht2e : qtree_remove t2d 1 = ⟨1, qnode.node ⟨⟨2,2⟩,⟨2,2⟩⟩ [0]
    nwEmpty (qnode.leaf ⟨⟨3,1⟩,⟨1,1⟩⟩ [])
    (qnode.leaf ⟨⟨1,3⟩,⟨1,1⟩⟩ []) (qnode.leaf ⟨⟨3,3⟩,⟨1,1⟩⟩ []), predC2⟩ := by
  rw [ht2d]
  simp only [qtree_remove, qnode_remove, removeFirst, nwFull, nwEmpty]
  norm_num

/-- Querying the whole area of `t2d` finds the filler and both copies of
handle 1. -/
lemma hfind_t2d : qtree_findInArea t2d 0 0 4 4 = (some [0,1,1], 3) := by
  rw [ht2d]
  simp only [qtree_findInArea, qnode_getInRange, addMatching, retlist_add, aabb_intersects,
    queryRange, cTrunc, predC2, nwFull, List.foldl]
  norm_num

/-- Querying the whole area of `t8r` finds only the filler: every copy of
handle 1 is gone after one insert and one remove. -/
lemma hfind_t8r : qtree_findInArea t8r 0 0 4 4 = (some [0], 1) := by
  rw [ht8r]
  simp only [qtree_findInArea, qnode_getInRange, addMatching, retlist_add, aabb_intersects,
    queryRange, cTrunc, predC2, nwEmpty, neEmpty, List.foldl]
  norm_num

/-- The scenario-1 tree starts as an empty leaf over (0,0,100,100). -/
lemma ht9a : t9a = ⟨4, qnode.leaf ⟨⟨50,50⟩,⟨50,50⟩⟩ [], predPoint⟩ := by
  norm_num [t9a, qtree_new, qnode_new]

/-- Scenario 1 after one point. -/
lemma ht9b : t9b = ⟨4, qnode.leaf ⟨⟨50,50⟩,⟨50,50⟩⟩ [(10,10)], predPoint⟩ := by
  rw [t9b, ht9a]
  simp only [qtree_insert, qnode_insert, qbound, qelist, add, qtree_getMaxNodeCnt,
    predPoint, aabb_contains]
  norm_num

/-- Scenario 1 after two points. -/
lemma ht9c : t9c = ⟨4, qnode.leaf ⟨⟨50,50⟩,⟨50,50⟩⟩ [(10,10),(20,20)], predPoint⟩ := by
  rw [t9c, ht9b]
  simp only [qtree_insert, qnode_insert, qbound, qelist, add, qtree_getMaxNodeCnt,
    predPoint, aabb_contains]
  norm_num

/-- Scenario 1 after three points. -/
lemma ht9d : t9d = ⟨4, qnode.leaf ⟨⟨50,50⟩,⟨50,50⟩⟩ [(10,10),(20,20),(30,30)], predPoint⟩ := by
  rw [t9d, ht9c]
  simp only [qtree_insert, qnode_insert, qbound, qelist, add, qtree_getMaxNodeCnt,
    predPoint, aabb_contains]
  norm_num

/-- Scenario 1 after four points: the root is a full leaf. -/
lemma ht9e : t9e = ⟨4, qnode.leaf ⟨⟨50,50⟩,⟨50,50⟩⟩
    [(10,10),(20,20),(30,30),(40,40)], predPoint⟩ := by
  rw [t9e, ht9d]
  simp only [qtree_insert, qnode_insert, qbound, qelist, add, qtree_getMaxNodeCnt,
    predPoint, aabb_contains]
  norm_num

/-- Scenario 1 after the fifth point: the root keeps its four elements and
gains four children; (60,60) is stored in the SE child. -/
lemma ht9f : t9f = ⟨4, qnode.node ⟨⟨50,50⟩,⟨50,50⟩⟩ [(10,10),(20,20),(30,30),(40,40)]
    (qnode.leaf ⟨⟨25,25⟩,⟨25,25⟩⟩ []) (qnode.leaf ⟨⟨75,25⟩,⟨25,25⟩⟩ [])
    (qnode.leaf ⟨⟨25,75⟩,⟨25,25⟩⟩ []) (qnode.leaf ⟨⟨75,75⟩,⟨25,25⟩⟩ [(60,60)]), predPoint⟩ := by
  rw [t9f, ht9e]
  simp only [qtree_insert, qnode_insert, qbound, qelist, add, subdivide, qnode_new,
    qtree_getMaxNodeCnt, predPoint, aabb_contains]
  norm_num

/-- Scenario 1 query over (50,50,50,50) returns exactly the point (60,60). -/
lemma hfind_t9f : qtree_findInArea t9f 50 50 50 50 = (some [(60,60)], 1) := by
  rw [ht9f]
  simp only [qtree_findInArea, qnode_getInRange, addMatching, retlist_add, aabb_intersects,
    aabb_contains, queryRange, cTrunc, predPoint, List.foldl]
  norm_num

end Quadtree

namespace Quadtree

/-- C1: the claim says `set_max_cap(q, n)` stores max(n, 1), so storing 5
for n = 5.  The C source stores the value of `cnt || 1`, a logical OR
that always evaluates to 1; for n = 5 the stored capacity is 1, not 5. -/
theorem setMaxCap_stores_one :
    (qtree_setMaxNodeCnt (qtree_new 0 0 100 100 (fun (_ : ℕ) (_ : aabb) => true)) 5).maxnodecap
      = 1 := by
  norm_num [qtree_setMaxNodeCnt, qtree_new, cOr]

/-- C2: the claim says that after a double insert of the same handle one
remove call removes only the first match, leaving the other copy, two
calls being needed to purge both.  In the tree `t2d`, built by the public
API, handle 1 was inserted twice and its two copies live in two distinct
sibling nodes (the root list holds only the filler 0); a single remove
call purges both copies at once, because the node-level remove reports
NULL even on success and the search therefore continues into the NE
sibling after already removing the NW copy. -/
theorem remove_purges_both_sibling_copies :
    qnode_elems t2d.root = [0, 1, 1] ∧
    qelist t2d.root = [0] ∧
    qnode_elems (qtree_remove t2d 1).root = [0] := by
  refine ⟨?_, ?_, ?_⟩
  · rw [ht2d]
    simp [qnode_elems, qelist, nwFull]
  · rw [ht2d]
    simp [qelist]
  · rw [ht2e]
    simp [qnode_elems, qelist, nwEmpty]

/-- C3: the claim says the node-level remove returns the removed handle
when it is found in the node's list or in a descendant, and none exactly
when it is absent.  The code always returns the null pointer: on a direct
hit in the node's own list and on a hit inside a child the returned value
is none even though the handle was found and removed. -/
theorem remove_returns_null_even_when_found :
    qnode_remove (qnode.leaf (⟨⟨0,0⟩,⟨1,1⟩⟩ : aabb) [(7:ℕ)]) 7
      = (qnode.leaf ⟨⟨0,0⟩,⟨1,1⟩⟩ [], none) ∧
    qnode_remove (qnode.node (⟨⟨0,0⟩,⟨2,2⟩⟩ : aabb) []
        (qnode.leaf ⟨⟨-1,-1⟩,⟨1,1⟩⟩ [(7:ℕ)]) (qnode.leaf ⟨⟨1,-1⟩,⟨1,1⟩⟩ [])
        (qnode.leaf ⟨⟨-1,1⟩,⟨1,1⟩⟩ []) (qnode.leaf ⟨⟨1,1⟩,⟨1,1⟩⟩ [])) 7
      = (qnode.node ⟨⟨0,0⟩,⟨2,2⟩⟩ []
        (qnode.leaf ⟨⟨-1,-1⟩,⟨1,1⟩⟩ []) (qnode.leaf ⟨⟨1,-1⟩,⟨1,1⟩⟩ [])
        (qnode.leaf ⟨⟨-1,1⟩,⟨1,1⟩⟩ []) (qnode.leaf ⟨⟨1,1⟩,⟨1,1⟩⟩ []), none) := by
  constructor
  · simp [qnode_remove, removeFirst]
  · simp [qnode_remove, removeFirst]

/-- C4: the claim says intersects(A,B) holds iff the real-valued absolute
center differences are strictly below the summed half-extents, so that
for A.cx - B.cx = 9/10 and summed half-widths 1/2 the boxes do not
intersect.  The C code passes the float difference through the integer
abs of stdlib.h, truncating 9/10 to 0, and therefore reports these two
boxes as intersecting. -/
theorem intersects_true_despite_separated_boxes :
    aabb_intersects ⟨⟨9/10, 0⟩, ⟨1/4, 1⟩⟩ ⟨⟨0, 0⟩, ⟨1/4, 1⟩⟩ = true := by
  have h1 : cTrunc ((9:ℚ)/10) = 0 := by
    norm_num [cTrunc, Int.floor_eq_zero_iff]
  have h2 : cTrunc (0:ℚ) = 0 := by
    norm_num [cTrunc]
  simp [aabb_intersects, h1, h2]

/-- C5: node-level insert returns false when the placement predicate
rejects the node's bound; otherwise appends and returns true when the
element count is strictly below the configured capacity; otherwise
subdivides a leaf and tries the NW, NE, SW, SE children in that fixed
order, returning true at the first child that accepts and false when all
four reject. -/
theorem qnode_insert_steps {α : Type} (q : _qtree α) (fuel : ℕ) (qn : qnode α) (ptr : α) :
    qnode_insert q (fuel+1) qn ptr =
      if q.cmpfnc ptr (qbound qn) = false then some (qn, false)
      else if (qelist qn).length < qtree_getMaxNodeCnt q then some (add qn ptr, true)
      else
        (spec_tryChildren (fun c => qnode_insert q fuel c ptr)
            (spec_children (spec_subdivided qn))).map
          fun p => (spec_withChildren (spec_subdivided qn) p.1, p.2) := by
  cases qn with
  | leaf b l =>
    simp only [qnode_insert]
    split_ifs with h1 h2
    · rfl
    · rfl
    · rcases hsd : subdivide (α := α) b with ⟨nw, ne, sw, se⟩
      simp only [spec_subdivided, hsd, spec_children, spec_withChildren]
      cases hnw : qnode_insert q fuel nw ptr with
      | none => simp [spec_tryChildren, hnw]
      | some p1 =>
        obtain ⟨nw1, r1⟩ := p1
        cases r1 with
        | true => simp [spec_tryChildren, hnw, spec_withChildren]
        | false =>
          cases hne : qnode_insert q fuel ne ptr with
          | none => simp [spec_tryChildren, hnw, hne]
          | some p2 =>
            obtain ⟨ne1, r2⟩ := p2
            cases r2 with
            | true => simp [spec_tryChildren, hnw, hne, spec_withChildren]
            | false =>
              cases hsw : qnode_insert q fuel sw ptr with
              | none => simp [spec_tryChildren, hnw, hne, hsw]
              | some p3 =>
                obtain ⟨sw1, r3⟩ := p3
                cases r3 with
                | true => simp [spec_tryChildren, hnw, hne, hsw, spec_withChildren]
                | false =>
                  cases hse : qnode_insert q fuel se ptr with
                  | none => simp [spec_tryChildren, hnw, hne, hsw, hse]
                  | some p4 =>
                    obtain ⟨se1, r4⟩ := p4
                    cases r4 <;>
                      simp [spec_tryChildren, hnw, hne, hsw, hse, spec_withChildren]
  | node b l nw ne sw se =>
    simp only [qnode_insert]
    split_ifs with h1 h2
    · rfl
    · rfl
    · simp only [spec_subdivided, spec_children, spec_withChildren]
      cases hnw : qnode_insert q fuel nw ptr with
      | none => simp [spec_tryChildren, hnw]
      | some p1 =>
        obtain ⟨nw1, r1⟩ := p1
        cases r1 with
        | true => simp [spec_tryChildren, hnw, spec_withChildren]
        | false =>
          cases hne : qnode_insert q fuel ne ptr with
          | none => simp [spec_tryChildren, hnw, hne]
          | some p2 =>
            obtain ⟨ne1, r2⟩ := p2
            cases r2 with
            | true => simp [spec_tryChildren, hnw, hne, spec_withChildren]
            | false =>
              cases hsw : qnode_insert q fuel sw ptr with
              | none => simp [spec_tryChildren, hnw, hne, hsw]
              | some p3 =>
                obtain ⟨sw1, r3⟩ := p3
                cases r3 with
                | true => simp [spec_tryChildren, hnw, hne, hsw, spec_withChildren]
                | false =>
                  cases hse : qnode_insert q fuel se ptr with
                  | none => simp [spec_tryChildren, hnw, hne, hsw, hse]
                  | some p4 =>
                    obtain ⟨se1, r4⟩ := p4
                    cases r4 <;>
                      simp [spec_tryChildren, hnw, hne, hsw, hse, spec_withChildren]

/-- C6: every element of the list returned by find_in_area is stored in
some node of the tree and satisfies the placement predicate against the
query range centered at (x+w/2, y+h/2) with half-extents (w/2, h/2). -/
theorem find_in_area_sound {α : Type} (q : _qtree α) (x y w h : ℚ) (e : α)
    (hmem : e ∈ ((qtree_findInArea q x y w h).1).getD []) :
    e ∈ qnode_elems q.root ∧ q.cmpfnc e (queryRange x y w h) = true := by
  have hg := getInRange_mem q q.root
    { cnt := 0, range := queryRange x y w h, list := none } e
  rcases hg hmem with h1 | ⟨h1, h2⟩
  · simp at h1
  · exact ⟨h1, h2⟩

/-- Witness for C6 at the scenario-1 tree: the point (60,60) is in the
query result over (50,50,50,50), is stored in the tree, and satisfies
the predicate against that query range. -/
theorem find_in_area_sound_witness :
    ((60:ℚ),(60:ℚ)) ∈ ((qtree_findInArea t9f 50 50 50 50).1).getD [] ∧
    (((60:ℚ),(60:ℚ)) ∈ qnode_elems t9f.root ∧
      t9f.cmpfnc (60,60) (queryRange 50 50 50 50) = true) :=
  ⟨by simp [hfind_t9f],
   find_in_area_sound t9f 50 50 50 50 (60,60) (by simp [hfind_t9f])⟩

/-- C7: clear leaves the tree with exactly one node, the root, carrying
the same bound as before the call, zero elements and no children. -/
theorem clear_single_node {α : Type} (q : _qtree α) :
    (qtree_clear q).root = qnode.leaf (qbound q.root) [] := by
  cases hr : q.root with
  | leaf b l => simp [qtree_clear, qnode_new, hr, qbound]
  | node b l nw ne sw se => simp [qtree_clear, qnode_new, hr, qbound]

/-- C8: the claim says insert(e) followed by remove(e) leaves the tree
query-equivalent to the starting state.  Starting from the tree `t2d`,
which already holds handle 1 (twice), the area query over the whole
bound finds handle 1 before the round trip, but after insert of handle 1
followed by one remove of handle 1 the query no longer finds it at all:
the remove purged the pre-existing copies along with the inserted one. -/
theorem insert_remove_round_trip_changes_queries :
    (1 ∈ ((qtree_findInArea t2d 0 0 4 4).1).getD []) ∧
    ¬ (1 ∈ ((qtree_findInArea t8r 0 0 4 4).1).getD []) := by
  constructor
  · simp [hfind_t2d]
  · simp [hfind_t8r]

/-- C9: in the tree over (0,0,100,100) with capacity 4 and the
point-containment predicate, after inserting (10,10), (20,20), (30,30)
and (40,40) the root is a leaf with those 4 elements; after inserting
(60,60) the root keeps its 4 elements and has four children with (60,60)
stored in the SE (large-x, large-y) child; and find_in_area(50,50,50,50)
returns exactly the handle at (60,60). -/
theorem scenario_one_literal :
    t9e.root = qnode.leaf ⟨⟨50,50⟩,⟨50,50⟩⟩ [(10,10),(20,20),(30,30),(40,40)] ∧
    t9f.root = qnode.node ⟨⟨50,50⟩,⟨50,50⟩⟩ [(10,10),(20,20),(30,30),(40,40)]
      (qnode.leaf ⟨⟨25,25⟩,⟨25,25⟩⟩ []) (qnode.leaf ⟨⟨75,25⟩,⟨25,25⟩⟩ [])
      (qnode.leaf ⟨⟨25,75⟩,⟨25,25⟩⟩ []) (qnode.leaf ⟨⟨75,75⟩,⟨25,25⟩⟩ [(60,60)]) ∧
    qtree_findInArea t9f 50 50 50 50 = (some [(60,60)], 1) := by
  refine ⟨?_, ?_, hfind_t9f⟩
  · rw [ht9e]
  · rw [ht9f]

/-- C10: when no stored element satisfies the placement predicate against
the query range, find_in_area returns the NULL list pointer (not a
zero-length allocation) and a count of 0. -/
theorem find_in_area_no_match_null {α : Type} (q : _qtree α) (x y w h : ℚ)
    (hf : ∀ e ∈ qnode_elems q.root, q.cmpfnc e (queryRange x y w h) = false) :
    qtree_findInArea q x y w h = (none, 0) := by
  unfold qtree_findInArea
  rw [getInRange_nomatch q q.root _ hf]

/-- Witness for C10 at a one-element tree whose predicate rejects every
element: the query yields the null list and count 0. -/
theorem find_in_area_no_match_null_witness :
    (∀ e ∈ qnode_elems t10.root, t10.cmpfnc e (queryRange 0 0 2 2) = false) ∧
    qtree_findInArea t10 0 0 2 2 = (none, 0) :=
  ⟨by simp [t10, qnode_elems], find_in_area_no_match_null t10 0 0 2 2 (by simp [t10, qnode_elems])⟩

end Quadtree
